import Mathlib

/-!
Verification of the keyword-extraction / task-matching engine
(`src/lib/taskMapping.ts`, class `TaskMappingEngine`) of the
200notes-claude-code CLI.

Strings are modelled as lists of UTF-16 code units (`List Nat`), which is the
JavaScript string model; all string operations of the engine are embedded at
that level.  `String.toLowerCase` is modelled on the ASCII range (the only
range exercised by the engine's regexes, stop-word table and the claims);
regex character classes `[A-Z]`, `\w`, `[a-zA-Z]` are ASCII-exact in
JavaScript and are embedded exactly.
-/

/-- A JavaScript string: its sequence of UTF-16 code units. -/
abbrev Str := List Nat

/-- Code units of a Lean string literal, for writing concrete JS strings. -/
def str (s : String) : Str := s.data.map Char.toNat

/-- The JavaScript `\s` class (also the set trimmed by `String.trim`):
ASCII whitespace, NBSP, Ogham space, the Unicode space range U+2000..U+200A,
line/paragraph separators, narrow NBSP, medium mathematical space,
ideographic space and the BOM. -/
def isWs (n : Nat) : Bool :=
  n == 9 || n == 10 || n == 11 || n == 12 || n == 13 || n == 32 || n == 160 ||
  n == 5760 || (8192 ≤ n && n ≤ 8202) || n == 8232 || n == 8233 || n == 8239 ||
  n == 8287 || n == 12288 || n == 65279

/-- Characters matched by the regex `.` (not a line terminator). -/
def isDotChar (n : Nat) : Bool :=
  !(n == 10 || n == 13 || n == 8232 || n == 8233)

/-- ASCII letter, the regex class `[a-zA-Z]`. -/
def isAsciiLetter (n : Nat) : Bool :=
  (65 ≤ n && n ≤ 90) || (97 ≤ n && n ≤ 122)

/-- The regex class `\w`, exactly `[A-Za-z0-9_]` in JavaScript. -/
def isWordChar (n : Nat) : Bool :=
  isAsciiLetter n || (48 ≤ n && n ≤ 57) || n == 95

/-- A single or double quote, the regex class `['"]`. -/
def isQuote (n : Nat) : Bool := n == 39 || n == 34

/-- `String.toLowerCase` on one code unit (ASCII range). -/
def lowerChar (n : Nat) : Nat := if 65 ≤ n ∧ n ≤ 90 then n + 32 else n

/-- `String.toLowerCase`. -/
def jsLower (s : Str) : Str := s.map lowerChar

/-- `String.trim`: remove leading and trailing `\s` characters. -/
def jsTrim (s : Str) : Str := ((s.dropWhile isWs).reverse.dropWhile isWs).reverse

/-- `haystack.includes(needle)` on JS strings (in particular, an empty needle
is contained in every string). -/
def strIncludes (s sub : Str) : Bool :=
  match s with
  | [] => sub.isEmpty
  | _ :: t => sub.isPrefixOf s || strIncludes t sub

mutual

/-- Worker for `splitWs`: accumulating the current (reversed) token. -/
def splitWsGo (cur : Str) : Str → List Str
  | [] => [cur.reverse]
  | c :: rest => if isWs c then cur.reverse :: splitWsSkip rest else splitWsGo (c :: cur) rest

/-- Worker for `splitWs`: inside a (nonempty) whitespace run. -/
def splitWsSkip : Str → List Str
  | [] => [[]]
  | c :: rest => if isWs c then splitWsSkip rest else splitWsGo [c] rest

end

/-- `s.split(/\s+/)`: split at maximal whitespace runs.  As in JavaScript, a
leading run contributes a leading empty string and a trailing run contributes
a trailing empty string (`"a ".split(/\s+/)` is `["a", ""]`), and splitting
the empty string yields `[""]`. -/
def splitWs (s : Str) : List Str := splitWsGo [] s

/-- `s.split(sep)` for a one-character class of separators: split at every
separator occurrence, keeping empty pieces. -/
def charSplitAux (sep : Nat → Bool) (cur : Str) : Str → List Str
  | [] => [cur.reverse]
  | c :: rest =>
    if sep c then cur.reverse :: charSplitAux sep [] rest
    else charSplitAux sep (c :: cur) rest

/-- See `charSplitAux`. -/
def charSplit (sep : Nat → Bool) (s : Str) : List Str := charSplitAux sep [] s

/-- `array.join(' ')`. -/
def joinSpace : List Str → Str
  | [] => []
  | [t] => t
  | t :: u :: rest => t ++ 32 :: joinSpace (u :: rest)

/-- `arr.filter((k, i) => arr.indexOf(k) === i)`: keep the first occurrence of
every element, dropping later duplicates.  `seen` collects kept elements. -/
def dedupFirstAux (seen : List Str) : List Str → List Str
  | [] => []
  | k :: rest =>
    if k ∈ seen then dedupFirstAux seen rest
    else k :: dedupFirstAux (k :: seen) rest

/-- See `dedupFirstAux`. -/
def dedupFirst (l : List Str) : List Str := dedupFirstAux [] l

/-! Node `path` (POSIX) operations used by the engine. -/

/-- Remove trailing `/` characters. -/
def dropTrailingSlashes (s : Str) : Str := (s.reverse.dropWhile (fun c => c == 47)).reverse

/-- Node `path.basename(p)` (POSIX): the last path segment, ignoring trailing
slashes; `""` when there is none. -/
def basename (p : Str) : Str :=
  let t := dropTrailingSlashes p
  (t.reverse.takeWhile (fun c => c != 47)).reverse

/-- Node `path.basename(p, ext)`: `basename p`, with the suffix `ext` removed
when it is a proper nonempty suffix of the basename. -/
def basenameExt (p ext : Str) : Str :=
  let b := basename p
  if !ext.isEmpty && ext.isSuffixOf b && b != ext then b.take (b.length - ext.length) else b

/-- Node `path.dirname(p)` (POSIX). -/
def dirname (p : Str) : Str :=
  if p.isEmpty then str "."
  else
    let hasRoot := p.head? = some 47
    let t := dropTrailingSlashes p
    if t.isEmpty then str "/"
    else
      let seg := (t.reverse.takeWhile (fun c => c != 47)).reverse
      let pre := t.take (t.length - seg.length)
      if pre.isEmpty then str "."
      else if pre.length = 1 then str "/"
      else if hasRoot ∧ pre.length = 2 then pre
      else pre.dropLast

/-- Node `path.extname(p)` (POSIX): from the last `.` of the basename to the
end; empty when the basename has no dot, starts with its only dot, or is
exactly `".."`. -/
def extname (p : Str) : Str :=
  let b := basename p
  let afterDot := b.reverse.takeWhile (fun c => c != 46)
  if afterDot.length = b.length then []
  else
    let d := b.length - afterDot.length - 1
    if d = 0 then []
    else if b = [46, 46] then []
    else b.drop d

/-- `filename.replace(/\.[^/.]+$/, '')`: strip a final `.ext` whose `ext` is
nonempty and contains neither `.` nor `/`. -/
def stripExt (name : Str) : Str :=
  let rev := name.reverse
  let extRun := rev.takeWhile (fun c => c != 46 && c != 47)
  match rev.drop extRun.length with
  | 46 :: r => if extRun.isEmpty then name else r.reverse
  | _ => name

/-- Worker for `camelSplit`. -/
def camelSplitAux (cur : Str) : Str → List Str
  | [] => [cur.reverse]
  | c :: rest =>
    if 65 ≤ c && c ≤ 90 then cur.reverse :: camelSplitAux [c] rest
    else camelSplitAux (c :: cur) rest

/-- `s.split(/(?=[A-Z])/)`: break before every uppercase ASCII letter that is
not at position 0 (a zero-width match at position 0 does not split). -/
def camelSplit : Str → List Str
  | [] => []
  | c :: rest => camelSplitAux [c] rest

namespace Notes

/-! The data model (`src/types.ts`). -/

/-- `Task.status`, the union type `'todo' | 'in_progress' | 'done'`. -/
inductive TaskStatus where
  | todo
  | in_progress
  | done
deriving DecidableEq

/-- `Task.priority`, the union type `'low' | 'medium' | 'high'`. -/
inductive Priority where
  | low
  | medium
  | high
deriving DecidableEq

/-- The change type passed to `suggestTaskStatus`:
`'create' | 'modify' | 'delete'`. -/
inductive ChangeType where
  | create
  | modify
  | delete
deriving DecidableEq

/-- The `Task` interface, restricted to the fields the mapping engine reads
(`title`, `description?`, `status`, `priority`, `tags`; the remaining fields
`due_date?`, `assignee?`, `project`, `created_at`, `updated_at` are never
touched by `TaskMappingEngine` and are omitted).  The optional `description`
is an `Option`; JavaScript truthiness additionally treats an empty string
like an absent one, which is modelled where the code tests it. -/
structure Task where
  id : Nat
  title : Str
  description : Option Str
  status : TaskStatus
  priority : Priority
  tags : List Str
deriving DecidableEq

/-! The `TaskMappingEngine` itself (`src/lib/taskMapping.ts`). -/

/-- The stop-word set of `isCommonWord`, in source order (the source builds a
`Set`, so duplicated entries are harmless; membership is what matters). -/
def commonWords : List Str :=
  [str "the", str "and", str "for", str "are", str "but", str "not", str "you",
   str "all", str "can", str "had", str "was", str "one", str "our", str "out",
   str "day", str "get", str "has", str "her", str "his", str "how", str "its",
   str "new", str "now", str "old", str "see", str "two", str "way", str "who",
   str "boy", str "did", str "man", str "may", str "she", str "use", str "your",
   str "said", str "each", str "make", str "most", str "over", str "such",
   str "time", str "very", str "what", str "with", str "have", str "from",
   str "they", str "know", str "want", str "been", str "good", str "much",
   str "some", str "than", str "them", str "well", str "were",
   str "function", str "return", str "const", str "var", str "let", str "if",
   str "else", str "for", str "while", str "do", str "try", str "catch",
   str "throw", str "new", str "this", str "super", str "extends",
   str "implements", str "interface", str "type", str "export", str "import",
   str "default", str "async", str "await",
   str "public", str "private", str "protected", str "static", str "final",
   str "abstract", str "class", str "namespace", str "use",
   str "def", str "class", str "import", str "from", str "as", str "if",
   str "else", str "elif", str "for", str "while", str "try", str "except",
   str "finally", str "with", str "lambda", str "yield", str "return",
   str "index", str "main", str "app", str "src", str "test", str "tests",
   str "lib", str "libs", str "config", str "dist", str "build", str "node",
   str "modules"]

/-- `TaskMappingEngine.isCommonWord`. -/
def isCommonWord (word : Str) : Bool := commonWords.contains (jsLower word)

/-- The shared normalize / filter / dedupe pipeline applied at the end of both
`extractKeywordsFromPath` and `extractKeywordsFromContent` (lines 31-34 and
66-69 of the source): lowercase and trim every candidate, keep only those of
length `> 2` that are not stop words, and drop duplicate occurrences after
the first. -/
def cleanKeywords (keywords : List Str) : List Str :=
  dedupFirst (((keywords.map (fun keyword => jsTrim (jsLower keyword))).filter
    (fun keyword => decide (2 < keyword.length) && !isCommonWord keyword)))

/-- `TaskMappingEngine.extractKeywordsFromPath`. -/
def extractKeywordsFromPath (filePath : Str) : List Str :=
  let filename := basename filePath
  let nameWithoutExt := stripExt filename
  let camelCaseWords := (camelSplit nameWithoutExt).filter (fun w => !w.isEmpty)
  let separatedWords :=
    (charSplit (fun c => c == 45 || c == 95) nameWithoutExt).filter (fun w => !w.isEmpty)
  let dirs := (charSplit (fun c => c == 47) (dirname filePath)).filter
    (fun dir => dir != str "." && dir != str "/")
  cleanKeywords ([nameWithoutExt] ++ camelCaseWords ++ separatedWords ++ dirs)

/-! Content extractors.  Each embeds a global regex scan: the engine attempts
a match at each position from left to right, continues after the end of a
successful match, and advances one code unit past a failed position.  The
scanners below are written with explicit fuel equal to the input length;
every step consumes at least one code unit, so the fuel never runs out
before the input does. -/

/-- One match attempt of `/(?:function\s+|const\s+|let\s+|var\s+)(\w+)/` (or
the analogous single-keyword patterns `class\s+(\w+)`, `def\s+(\w+)`,
`function\s+(\w+)`) at the current position: the alternatives are tried in
order; each needs the literal keyword, then one or more whitespace
characters, then one or more word characters (the captured identifier, which
is also what the source recovers via `match.split(/\s+/)`).  Returns the
identifier and the length of the whole match. -/
def identAfterStep (kws : List Str) (s : Str) : Option (Str × Nat) :=
  match kws with
  | [] => none
  | kw :: more =>
    if kw.isPrefixOf s then
      let rest := s.drop kw.length
      let wsRun := rest.takeWhile isWs
      let ident := (rest.drop wsRun.length).takeWhile isWordChar
      if !wsRun.isEmpty && !ident.isEmpty then
        some (ident, kw.length + wsRun.length + ident.length)
      else identAfterStep more s
    else identAfterStep more s

/-- Fuelled global scan for `identAfterStep`. -/
def identAfterScanF (kws : List Str) : Nat → Str → List Str
  | 0, _ => []
  | _, [] => []
  | fuel + 1, s@(_ :: rest) =>
    match identAfterStep kws s with
    | some (ident, consumed) => ident :: identAfterScanF kws fuel (s.drop consumed)
    | none => identAfterScanF kws fuel rest

/-- Global scan of a keyword-then-identifier regex over the whole content. -/
def identAfterScan (kws : List Str) (content : Str) : List Str :=
  identAfterScanF kws content.length content

/-- Match `from\s+['"]([^'"]+)['"]` at the start of `u`; returns the number
of code units consumed.  After the maximal whitespace run the next unit must
be a quote (shorter runs end on whitespace, which is not a quote, so greedy
matching here is deterministic); the quoted body is the maximal nonempty run
of non-quote units, necessarily followed by a quote if anything follows. -/
def tryFromAt (u : Str) : Option Nat :=
  if (str "from").isPrefixOf u then
    let r1 := u.drop 4
    let wsRun := r1.takeWhile isWs
    if wsRun.isEmpty then none
    else
      match r1.drop wsRun.length with
      | q1 :: r3 =>
        if isQuote q1 then
          let body := r3.takeWhile (fun c => !isQuote c)
          if body.isEmpty then none
          else
            match r3.drop body.length with
            | q2 :: _ => if isQuote q2 then some (4 + wsRun.length + 1 + body.length + 1) else none
            | [] => none
        else none
      | [] => none
  else none

/-- Greedy search for the `.*` of `/import.*from\s+['"]([^'"]+)['"]/`: try the
largest number `d` of dot-matchable units first (the regex `.*` is greedy and
backtracks), descending to 0.  Returns `(d, length of the from-clause)`. -/
def searchFromDesc (afterImp : Str) : Nat → Option (Nat × Nat)
  | 0 => (tryFromAt afterImp).map (fun e => (0, e))
  | d + 1 =>
    match tryFromAt (afterImp.drop (d + 1)) with
    | some e => some (d + 1, e)
    | none => searchFromDesc afterImp d

/-- The source's `match.match(/['"]([^'"]+)['"]/)![1]`: the first quoted
nonempty run of non-quote units inside `m` (the non-null assertion holds for
every string produced by `importStep`, which always contains one). -/
def firstQuotedF : Nat → Str → Str
  | 0, _ => []
  | _, [] => []
  | fuel + 1, c :: rest =>
    if isQuote c then
      let body := rest.takeWhile (fun x => !isQuote x)
      if !body.isEmpty && !(rest.drop body.length).isEmpty then body
      else firstQuotedF fuel rest
    else firstQuotedF fuel rest

/-- See `firstQuotedF`. -/
def firstQuoted (m : Str) : Str := firstQuotedF m.length m

/-- One match attempt of `/import.*from\s+['"]([^'"]+)['"]/` at the current
position, already mapped through the source's
`path.basename(moduleName, path.extname(moduleName))`. -/
def importStep (s : Str) : Option (Str × Nat) :=
  if (str "import").isPrefixOf s then
    let afterImp := s.drop 6
    match searchFromDesc afterImp (afterImp.takeWhile isDotChar).length with
    | some (d, e) =>
      let matched := str "import" ++ afterImp.take (d + e)
      let moduleName := firstQuoted matched
      some (basenameExt moduleName (extname moduleName), 6 + d + e)
    | none => none
  else none

/-- Fuelled global scan for `importStep`. -/
def importScanF : Nat → Str → List Str
  | 0, _ => []
  | _, [] => []
  | fuel + 1, s@(_ :: rest) =>
    match importStep s with
    | some (m, consumed) => m :: importScanF fuel (s.drop consumed)
    | none => importScanF fuel rest

/-- Global scan of the import regex. -/
def importScan (content : Str) : List Str := importScanF content.length content

/-- `TaskMappingEngine.extractJSKeywords`: declared identifiers, then class
names, then imported module base names, each from a pass over the whole
content. -/
def extractJSKeywords (content : Str) : List Str :=
  identAfterScan [str "function", str "const", str "let", str "var"] content
  ++ identAfterScan [str "class"] content
  ++ importScan content

/-- One match attempt of `/namespace\s+([\w\\]+)/` at the current position,
already mapped through the source's `namespace.split('\\').pop()` (the split
of a nonempty string is nonempty, so the `getD` default is unreachable). -/
def phpNsStep (s : Str) : Option (Str × Nat) :=
  if (str "namespace").isPrefixOf s then
    let rest := s.drop 9
    let wsRun := rest.takeWhile isWs
    let name := (rest.drop wsRun.length).takeWhile (fun c => isWordChar c || c == 92)
    if !wsRun.isEmpty && !name.isEmpty then
      some (((charSplit (fun c => c == 92) name).getLast?).getD [],
        9 + wsRun.length + name.length)
    else none
  else none

/-- Fuelled global scan for `phpNsStep`. -/
def phpNsScanF : Nat → Str → List Str
  | 0, _ => []
  | _, [] => []
  | fuel + 1, s@(_ :: rest) =>
    match phpNsStep s with
    | some (m, consumed) => m :: phpNsScanF fuel (s.drop consumed)
    | none => phpNsScanF fuel rest

/-- Global scan of the namespace regex. -/
def phpNsScan (content : Str) : List Str := phpNsScanF content.length content

/-- `TaskMappingEngine.extractPHPKeywords`: class names, then function names,
then namespace final segments. -/
def extractPHPKeywords (content : Str) : List Str :=
  identAfterScan [str "class"] content
  ++ identAfterScan [str "function"] content
  ++ phpNsScan content

/-- `TaskMappingEngine.extractPythonKeywords`: class names then function
names. -/
def extractPythonKeywords (content : Str) : List Str :=
  identAfterScan [str "class"] content
  ++ identAfterScan [str "def"] content

/-- Backtracking for a trailing `\s+(.+)` when the string ends right after
the whitespace run `w`: greedy `\s+` gives back units from the right, so the
largest split point `k` (with `1 ≤ k < w.length`) whose following unit is
dot-matchable wins, and `(.+)` then takes the maximal dot-run from there.
Returns `(captured text, units consumed out of w)`. -/
def wsBacktrack (w : Str) : Nat → Option (Str × Nat)
  | 0 => none
  | kp + 1 =>
    match w.drop (kp + 1) with
    | c :: r =>
      if isDotChar c then
        let text := c :: r.takeWhile isDotChar
        some (text, (kp + 1) + text.length)
      else wsBacktrack w kp
    | [] => wsBacktrack w kp

/-- Match a trailing `\s+(.+)` at the start of `u`: one or more whitespace
units, then one or more dot-matchable units, greedy with backtracking.
Returns the captured text and the total units consumed. -/
def tailTextMatch (u : Str) : Option (Str × Nat) :=
  let wsRun := u.takeWhile isWs
  if wsRun.isEmpty then none
  else
    match u.drop wsRun.length with
    | c :: r =>
      let text := c :: r.takeWhile isDotChar
      some (text, wsRun.length + text.length)
    | [] => wsBacktrack wsRun (wsRun.length - 1)

/-- One match attempt of `/#{1,6}\s+(.+)/` at the current position, already
mapped through the source's `match.replace(/#{1,6}\s+/, '').trim()` (which
leaves exactly the trimmed captured text).  A hash run longer than 6 cannot
match here: every shorter hash count is followed by another `#`, not
whitespace. -/
def mdHeaderStep (s : Str) : Option (Str × Nat) :=
  let hashes := s.takeWhile (fun c => c == 35)
  if hashes.isEmpty || decide (6 < hashes.length) then none
  else
    match tailTextMatch (s.drop hashes.length) with
    | some (text, e) => some (jsTrim text, hashes.length + e)
    | none => none

/-- One match attempt of `/[-*]\s+\[.\]\s+(.+)/` at the current position,
already mapped through `match.replace(/[-*]\s+\[.\]\s+/, '').trim()`. -/
def mdTaskStep (s : Str) : Option (Str × Nat) :=
  match s with
  | [] => none
  | c :: rest =>
    if c == 45 || c == 42 then
      let ws1 := rest.takeWhile isWs
      if ws1.isEmpty then none
      else
        match rest.drop ws1.length with
        | 91 :: x :: 93 :: r4 =>
          if isDotChar x then
            match tailTextMatch r4 with
            | some (text, e) => some (jsTrim text, 1 + ws1.length + 3 + e)
            | none => none
          else none
        | _ => none
    else none

/-- Fuelled global scan for a markdown step function. -/
def mdScanF (step : Str → Option (Str × Nat)) : Nat → Str → List Str
  | 0, _ => []
  | _, [] => []
  | fuel + 1, s@(_ :: rest) =>
    match step s with
    | some (m, consumed) => m :: mdScanF step fuel (s.drop consumed)
    | none => mdScanF step fuel rest

/-- `TaskMappingEngine.extractMarkdownKeywords`: header texts, then checklist
item texts. -/
def extractMarkdownKeywords (content : Str) : List Str :=
  mdScanF mdHeaderStep content.length content
  ++ mdScanF mdTaskStep content.length content

/-- Fuelled decomposition of a string into its maximal runs of word
characters. -/
def wordRunsF : Nat → Str → List Str
  | 0, _ => []
  | _, [] => []
  | fuel + 1, c :: rest =>
    if isWordChar c then
      (c :: rest.takeWhile isWordChar) :: wordRunsF fuel (rest.dropWhile isWordChar)
    else wordRunsF fuel rest

/-- The maximal word-character runs of a string. -/
def wordRuns (s : Str) : List Str := wordRunsF s.length s

/-- A match of `\b[A-Z][a-zA-Z]+\b`.  Word boundaries exist only at the two
ends of a maximal word-character run, so a match is exactly a whole run that
consists of ASCII letters only, starts with an uppercase one, and has length
at least 2. -/
def capMatch (w : Str) : Bool :=
  match w with
  | [] => false
  | c :: rest => (65 ≤ c && c ≤ 90) && rest.all isAsciiLetter && !rest.isEmpty

/-- `TaskMappingEngine.extractGenericKeywords`: the matches of
`/\b[A-Z][a-zA-Z]+\b/g`, filtered to length `> 3`. -/
def extractGenericKeywords (content : Str) : List Str :=
  ((wordRuns content).filter capMatch).filter (fun word => decide (3 < word.length))

/-- `TaskMappingEngine.extractKeywordsFromContent`: dispatch on the lowercased
extension (the source's `switch`), then the shared cleanup pipeline. -/
def extractKeywordsFromContent (content filePath : Str) : List Str :=
  let ext := jsLower (extname filePath)
  let raw :=
    if ext = str ".js" ∨ ext = str ".ts" ∨ ext = str ".jsx" ∨ ext = str ".tsx" then
      extractJSKeywords content
    else if ext = str ".php" then extractPHPKeywords content
    else if ext = str ".py" then extractPythonKeywords content
    else if ext = str ".md" then extractMarkdownKeywords content
    else extractGenericKeywords content
  cleanKeywords raw

/-- The searchable surface of line 97 of the source:
`` `${task.title} ${task.description || ''} ${task.tags.join(' ')}`.toLowerCase() ``
(`description || ''` turns an absent — or empty, both are falsy — description
into the empty string). -/
def taskText (task : Task) : Str :=
  jsLower (task.title ++ str " " ++ task.description.getD [] ++ str " " ++ joinSpace task.tags)

/-- `TaskMappingEngine.calculateMatchScore`: for each keyword, +10 for a
title hit, +5 for a description hit (the description must be truthy, i.e.
present and nonempty), +7 for a tag hit, and +2 for every element of
`taskText.split(/\s+/)` that contains the keyword or is contained in it. -/
def calculateMatchScore (task : Task) (keywords : List Str) : Nat :=
  keywords.foldl (fun score keyword =>
    let keywordLower := jsLower keyword
    let score := if strIncludes (jsLower task.title) keywordLower then score + 10 else score
    let score :=
      match task.description with
      | some d => if !d.isEmpty && strIncludes (jsLower d) keywordLower then score + 5 else score
      | none => score
    let score :=
      if task.tags.any (fun tag => strIncludes (jsLower tag) keywordLower) then score + 7
      else score
    let words := splitWs (taskText task)
    words.foldl
      (fun s w => if strIncludes w keywordLower || strIncludes keywordLower w then s + 2 else s)
      score) 0

/-- `TaskMappingEngine.findMatchingTasks`: collect `(task, score)` pairs with
positive score in input order, sort by descending score, return the tasks.
`Array.prototype.sort` is a stable sort, and with the comparator
`(a, b) => b.score - a.score` its result is the unique descending-by-score
reordering that keeps ties in input order; insertion sort with the total
preorder `b.score ≤ a.score` computes exactly that. -/
def findMatchingTasks (tasks : List Task) (keywords : List Str) : List Task :=
  let matchList := tasks.filterMap (fun task =>
    let score := calculateMatchScore task keywords
    if 0 < score then some (task, score) else none)
  (matchList.insertionSort (fun a b => b.2 ≤ a.2)).map (fun m => m.1)

/-- `TaskMappingEngine.suggestTaskStatus`.  (The source's `default` branch
also returns the current status; it is unreachable for the three-valued
change type.) -/
def suggestTaskStatus (task : Task) (changeType : ChangeType) : TaskStatus :=
  let currentStatus := task.status
  match changeType with
  | ChangeType.create | ChangeType.modify =>
    if currentStatus = TaskStatus.todo then TaskStatus.in_progress else currentStatus
  | ChangeType.delete => currentStatus

/-! Specification-side definitions, written from the claims' words, for
comparison with the embedded code. -/

/-- The whitespace-delimited words of the concatenated task text: the
nonempty maximal runs of non-whitespace characters (an empty string is not a
word). -/
def specWords (task : Task) : List Str := (splitWs (taskText task)).filter (fun w => !w.isEmpty)

/-- The task title contains the keyword, case-insensitively. -/
def titleHit (task : Task) (k : Str) : Bool := strIncludes (jsLower task.title) (jsLower k)

/-- The description is present and contains the keyword (the claim's reading
of "description is present": an `Option` that is `some`, including an empty
string). -/
def descPresentHit (task : Task) (k : Str) : Bool :=
  match task.description with
  | some d => strIncludes (jsLower d) (jsLower k)
  | none => false

/-- The description is truthy (present and nonempty) and contains the
keyword — what the code actually tests. -/
def descNonemptyHit (task : Task) (k : Str) : Bool :=
  match task.description with
  | some d => !d.isEmpty && strIncludes (jsLower d) (jsLower k)
  | none => false

/-- Some tag contains the keyword, case-insensitively. -/
def tagHit (task : Task) (k : Str) : Bool :=
  task.tags.any (fun tag => strIncludes (jsLower tag) (jsLower k))

/-- Bidirectional partial match between a word of the task text and the
keyword: the word contains the keyword or the keyword contains the word. -/
def wordMatch (k w : Str) : Bool := strIncludes w (jsLower k) || strIncludes (jsLower k) w

/-- Claim C1's per-keyword score: 10/5/7 bonuses plus 2 per matching
whitespace-delimited word of the concatenated task text. -/
def claimKeywordScore (task : Task) (k : Str) : Nat :=
  (if titleHit task k then 10 else 0) + (if descPresentHit task k then 5 else 0) +
  (if tagHit task k then 7 else 0) + 2 * (specWords task).countP (wordMatch k)

/-- Claim C1's score: the sum over the keywords of `claimKeywordScore`. -/
def claimScore (task : Task) (ks : List Str) : Nat := (ks.map (claimKeywordScore task)).sum

/-- The amended per-keyword score: as `claimKeywordScore`, except that the
description bonus requires a truthy (present and nonempty) description, and
the +2 term ranges over all elements of the JavaScript whitespace split of
the concatenated task text — including the empty element this split produces
when the concatenation starts or ends with whitespace (for instance when the
tag list is empty), which matches every keyword. -/
def amendedKeywordScore (task : Task) (k : Str) : Nat :=
  (if titleHit task k then 10 else 0) + (if descNonemptyHit task k then 5 else 0) +
  (if tagHit task k then 7 else 0) + 2 * (splitWs (taskText task)).countP (wordMatch k)

/-- The amended total score: per-keyword contributions are independent and
sum up. -/
def amendedScore (task : Task) (ks : List Str) : Nat := (ks.map (amendedKeywordScore task)).sum

/-- Claim C2's hypothesis for one keyword: no textual overlap with the task —
no substring hit in the title, the description or any tag, and no
bidirectional partial match with any whitespace-delimited word. -/
def noTextualOverlap (task : Task) (k : Str) : Prop :=
  titleHit task k = false ∧ descPresentHit task k = false ∧ tagHit task k = false ∧
  (specWords task).all (fun w => !wordMatch k w) = true

instance (task : Task) (k : Str) : Decidable (noTextualOverlap task k) := by
  unfold noTextualOverlap
  infer_instance

/-- The match list built by `findMatchingTasks` before sorting: the
`(task, score)` pairs with positive score, in input order. -/
def scorePairs (tasks : List Task) (keywords : List Str) : List (Task × Nat) :=
  tasks.filterMap (fun task =>
    let score := calculateMatchScore task keywords
    if 0 < score then some (task, score) else none)

/-- The extensions recognized by `extractKeywordsFromContent`'s dispatch. -/
def recognizedExts : List Str :=
  [str ".js", str ".ts", str ".jsx", str ".tsx", str ".php", str ".py", str ".md"]

/-- A capitalized word of length greater than 3, as in the spec's fallback
extractor table: a whole word (maximal word-character run) made of letters
whose first letter is uppercase. -/
def specCapitalizedLong (w : Str) : Bool :=
  match w with
  | [] => false
  | c :: rest => (65 ≤ c && c ≤ 90) && rest.all isAsciiLetter && decide (3 < (c :: rest).length)

/-- The keyword invariants of claim C4, as one decidable predicate:
lowercase, trimmed, nonempty, of length greater than 2, and not a stop
word. -/
def goodKeyword (k : Str) : Bool :=
  jsLower k == k && jsTrim k == k && !k.isEmpty && decide (2 < k.length) && !isCommonWord k

/-- A concrete task exhibiting the empty-word scoring artifact: no
description and no tags, so the concatenated task text is `"abc  "` and its
whitespace split ends with an empty string. -/
def artifactTask : Task :=
  { id := 7, title := str "abc", description := none, status := TaskStatus.todo,
    priority := Priority.medium, tags := [] }

/-- A concrete task with a nonempty title, description and tag, whose
concatenated text has no leading or trailing whitespace. -/
def plainTask : Task :=
  { id := 8, title := str "abc", description := some (str "def"), status := TaskStatus.todo,
    priority := Priority.medium, tags := [str "ghi"] }

/-! Sanity checks of the JavaScript semantics embedding, on concrete
inputs (several are the repository's own unit-test cases). -/

example : splitWs (str "abc  ") = [str "abc", []] := by decide
example : splitWs (str " a  b") = [[], str "a", str "b"] := by decide
example : camelSplit (str "PaymentController") = [str "Payment", str "Controller"] := by decide
example : camelSplit (str "payment") = [str "payment"] := by decide
example : basename (str "src/a/B.js") = str "B.js" := by decide
example : dirname (str "src/controllers/PaymentController.js") = str "src/controllers" := by decide
example : dirname (str "x.js") = str "." := by decide
example : extname (str "test.PHP") = str ".PHP" := by decide
example : extname (str ".js") = [] := by decide
example : stripExt (str "PaymentController.js") = str "PaymentController" := by decide
example : stripExt (str "Dockerfile") = str "Dockerfile" := by decide
example : stripExt (str ".js") = [] := by decide
example : basenameExt (str "./payment-service") (extname (str "./payment-service"))
    = str "payment-service" := by decide
example : extractKeywordsFromPath (str "src/controllers/PaymentController.js") =
    [str "paymentcontroller", str "payment", str "controller", str "controllers"] := by decide
example : extractKeywordsFromPath (str "stripe_webhook_handler.js") =
    [str "stripe_webhook_handler", str "stripe", str "webhook", str "handler"] := by decide
example : extractKeywordsFromPath (str "payment/PaymentService.js") =
    [str "paymentservice", str "payment", str "service"] := by decide

/-! Lemmas about the scoring loop. -/

/-- Accumulating +2 per hit over a list is 2 times the hit count. -/
theorem foldl_two_countP (p : Str → Bool) (l : List Str) (s : Nat) :
    l.foldl (fun sc w => if p w then sc + 2 else sc) s = s + 2 * l.countP p := by
  induction l generalizing s with
  | nil => simp
  | cons a l ih =>
    simp only [List.foldl, List.countP_cons]
    split <;> rename_i h <;> simp [ih, h] <;> omega

/-- A left fold whose step adds an accumulator-independent amount is the
starting value plus the sum of the per-element amounts. -/
theorem foldl_shift (g : Nat → Str → Nat) (h : Str → Nat) (hg : ∀ s k, g s k = s + h k) :
    ∀ (ks : List Str) (s : Nat), ks.foldl g s = s + (ks.map h).sum := by
  intro ks
  induction ks with
  | nil => simp
  | cons a ks ih => intro s; simp [List.foldl, hg, ih, Nat.add_assoc]

/-- Unfolding of the partially applied `wordMatch`. -/
theorem wordMatch_eq (k : Str) :
    wordMatch k = fun w => strIncludes w (jsLower k) || strIncludes (jsLower k) w := rfl

/-- The per-keyword step of `calculateMatchScore` adds exactly
`amendedKeywordScore`. -/
theorem score_step_eq (task : Task) (s : Nat) (k : Str) :
    (let keywordLower := jsLower k
     let score := if strIncludes (jsLower task.title) keywordLower then s + 10 else s
     let score :=
       match task.description with
       | some d => if !d.isEmpty && strIncludes (jsLower d) keywordLower then score + 5 else score
       | none => score
     let score :=
       if task.tags.any (fun tag => strIncludes (jsLower tag) keywordLower) then score + 7
       else score
     let words := splitWs (taskText task)
     words.foldl
       (fun s w => if strIncludes w keywordLower || strIncludes keywordLower w then s + 2 else s)
       score) = s + amendedKeywordScore task k := by
  obtain ⟨i, ti, de, st, pr, tg⟩ := task
  simp only [amendedKeywordScore, titleHit, descNonemptyHit, tagHit, wordMatch_eq]
  rw [foldl_two_countP]
  cases de with
  | none => dsimp only; simp only [Bool.false_eq_true, if_false]; split <;> split <;> omega
  | some d => dsimp only; split <;> split <;> split <;> omega

/-- `calculateMatchScore` computes the amended per-keyword sum. -/
theorem calculateMatchScore_eq_amendedScore (task : Task) (ks : List Str) :
    calculateMatchScore task ks = amendedScore task ks := by
  unfold calculateMatchScore amendedScore
  rw [foldl_shift _ (amendedKeywordScore task) (fun s k => score_step_eq task s k) ks 0]
  simp

/-- The claim-side description bonus dominates the code-side one. -/
theorem descNonemptyHit_le (task : Task) (k : Str) (h : descPresentHit task k = false) :
    descNonemptyHit task k = false := by
  obtain ⟨i, ti, de, st, pr, tg⟩ := task
  cases de with
  | none => rfl
  | some d =>
    simp only [descPresentHit] at h
    simp [descNonemptyHit, h]

/-- Under claim C2's no-overlap hypothesis, every per-keyword contribution is
zero whenever the whitespace split of the task text has no empty element. -/
theorem score_zero_of_noOverlap (task : Task) (ks : List Str)
    (h1 : ∀ k ∈ ks, noTextualOverlap task k)
    (h2 : (splitWs (taskText task)).all (fun w => !w.isEmpty) = true) :
    calculateMatchScore task ks = 0 := by
  rw [calculateMatchScore_eq_amendedScore]
  unfold amendedScore
  apply List.sum_eq_zero
  intro x hx
  obtain ⟨k, hk, rfl⟩ := List.mem_map.mp hx
  obtain ⟨ht, hd, htag, hw⟩ := h1 k hk
  have hwords : (splitWs (taskText task)).filter (fun w => !w.isEmpty) = splitWs (taskText task) :=
    List.filter_eq_self.mpr (List.all_eq_true.mp h2)
  have hcount : (splitWs (taskText task)).countP (wordMatch k) = 0 := by
    apply List.countP_eq_zero.mpr
    intro w hwmem
    have hspec : w ∈ specWords task := by
      unfold specWords
      rw [hwords]
      exact hwmem
    have := List.all_eq_true.mp hw w hspec
    simp at this
    simp [this]
  unfold amendedKeywordScore
  rw [ht, descNonemptyHit_le task k hd, htag, hcount]
  simp

/-! Claim theorems. -/

/-- C1 (counterexample): for the task with title `"abc"`, no description and
no tags, and the single keyword `"zzz"` — which has no substring hit in any
field and no bidirectional partial match with the only whitespace-delimited
word `"abc"` — the code computes score 2, while the claim's sum evaluates to
0: the claim's formula does not equal the computed score. -/
theorem c1_counterexample :
    calculateMatchScore artifactTask [str "zzz"] = 2 ∧
    claimScore artifactTask [str "zzz"] = 0 := by
  constructor
  · decide
  · decide

/-- C1 (amended): the computed score equals the sum over the keywords of
+10 for a title hit, +5 for a description hit where the description must be
present and nonempty, +7 for a tag hit, and +2 for every element of the
JavaScript whitespace split of the concatenated task text that contains the
keyword or is contained in it — where that split also yields an empty-string
element when the concatenation starts or ends with whitespace (for example
when the tag list is empty), and an empty element matches every keyword. -/
theorem c1_amended_score_formula (task : Task) (ks : List Str) :
    calculateMatchScore task ks = amendedScore task ks :=
  calculateMatchScore_eq_amendedScore task ks

/-- C2 (counterexample): the keyword `"zzz"` has no textual overlap with the
task `{title: "abc", description: absent, tags: []}` — no substring hit in
title, description or tags, and no bidirectional partial match with any
whitespace-delimited word — yet the computed score is 2, not 0 (the trailing
empty element of the whitespace split matches every keyword). -/
theorem c2_counterexample :
    noTextualOverlap artifactTask (str "zzz") ∧
    calculateMatchScore artifactTask [str "zzz"] = 2 := by
  constructor
  · decide
  · decide

/-- C2 (amended): if no keyword has any textual overlap with the task's
title, description or tags, and additionally the whitespace split of the
concatenated task text contains no empty element (which fails for a task
with an empty tag set, where the concatenation ends with a space), then the
score is exactly 0. -/
theorem c2_amended_no_overlap_score_zero (task : Task) (ks : List Str)
    (h1 : ∀ k ∈ ks, noTextualOverlap task k)
    (h2 : (splitWs (taskText task)).all (fun w => !w.isEmpty) = true) :
    calculateMatchScore task ks = 0 :=
  score_zero_of_noOverlap task ks h1 h2

/-- Witness for the amended C2: a task with a nonempty title, description and
tag (so the split has no empty element) and a non-overlapping keyword scores
0. -/
theorem c2_amended_witness : calculateMatchScore plainTask [str "zzz"] = 0 :=
  c2_amended_no_overlap_score_zero plainTask [str "zzz"] (by decide) (by decide)

/-- C9: each keyword's contribution is independent of the others, so the
score of a concatenated keyword list is the sum of the scores (duplicated
keywords count once per occurrence), and appending any keyword never
decreases the score. -/
theorem c9_score_additivity (task : Task) (ks1 ks2 : List Str) (k : Str) :
    calculateMatchScore task (ks1 ++ ks2) =
      calculateMatchScore task ks1 + calculateMatchScore task ks2 ∧
    calculateMatchScore task ks1 ≤ calculateMatchScore task (ks1 ++ [k]) := by
  have hadd : ∀ l1 l2 : List Str, calculateMatchScore task (l1 ++ l2) =
      calculateMatchScore task l1 + calculateMatchScore task l2 := by
    intro l1 l2
    simp [calculateMatchScore_eq_amendedScore, amendedScore]
  exact ⟨hadd ks1 ks2, by rw [hadd ks1 [k]]; exact Nat.le_add_right _ _⟩

/-- C5: the status-suggestion table.  The function is total on
`{todo, in_progress, done} × {create, modify, delete}` (both types are
enumerations); `(todo, create|modify)` gives `in_progress`,
`(in_progress, create|modify)` and `(done, create|modify)` are unchanged,
and `delete` leaves every status unchanged. -/
theorem c5_status_suggestion_table (t : Task) :
    suggestTaskStatus { t with status := TaskStatus.todo } ChangeType.create
      = TaskStatus.in_progress ∧
    suggestTaskStatus { t with status := TaskStatus.todo } ChangeType.modify
      = TaskStatus.in_progress ∧
    suggestTaskStatus { t with status := TaskStatus.in_progress } ChangeType.create
      = TaskStatus.in_progress ∧
    suggestTaskStatus { t with status := TaskStatus.in_progress } ChangeType.modify
      = TaskStatus.in_progress ∧
    suggestTaskStatus { t with status := TaskStatus.done } ChangeType.create
      = TaskStatus.done ∧
    suggestTaskStatus { t with status := TaskStatus.done } ChangeType.modify
      = TaskStatus.done ∧
    suggestTaskStatus t ChangeType.delete = t.status :=
  ⟨rfl, rfl, rfl, rfl, rfl, rfl, rfl⟩

/-- C10 (counterexample): the function does propose `todo` — for a task whose
status is `todo` and a `delete` change it returns `todo`, refuting the
claim's unqualified "never proposes todo". -/
theorem c10_counterexample :
    artifactTask.status = TaskStatus.todo ∧
    suggestTaskStatus artifactTask ChangeType.delete = TaskStatus.todo :=
  ⟨rfl, rfl⟩

/-- C10 (amended): the suggestion is always the current status or
`in_progress`; it equals `in_progress` exactly when the status is `todo` and
the change is `create` or `modify`, and otherwise equals the current status
(so it never proposes `done` for a task not already done, never proposes
`todo` for a task not already todo, and never leaves
`{todo, in_progress, done}`). -/
theorem c10_amended_transitions (t : Task) (c : ChangeType) :
    (suggestTaskStatus t c = t.status ∨ suggestTaskStatus t c = TaskStatus.in_progress) ∧
    suggestTaskStatus t c =
      (if t.status = TaskStatus.todo ∧ (c = ChangeType.create ∨ c = ChangeType.modify)
       then TaskStatus.in_progress else t.status) ∧
    (suggestTaskStatus t c = TaskStatus.todo ∨ suggestTaskStatus t c = TaskStatus.in_progress ∨
     suggestTaskStatus t c = TaskStatus.done) := by
  obtain ⟨i, ti, de, st, pr, tg⟩ := t
  cases c <;> cases st <;> simp [suggestTaskStatus]

/-! Lemmas for the keyword invariants (claim C4). -/

/-- Lowercasing a code unit is idempotent. -/
theorem lowerChar_idem (c : Nat) : lowerChar (lowerChar c) = lowerChar c := by
  unfold lowerChar
  split_ifs <;> omega

/-- Lowercasing a string is idempotent. -/
theorem jsLower_idem (s : Str) : jsLower (jsLower s) = jsLower s := by
  unfold jsLower
  induction s with
  | nil => rfl
  | cons c s ih => simp_all [lowerChar_idem]

/-- Lowercasing does not change whether a unit is whitespace. -/
theorem isWs_lowerChar (c : Nat) : isWs (lowerChar c) = isWs c := by
  unfold lowerChar
  split_ifs with h
  · have h1 : isWs (c + 32) = false := by simp [isWs]; omega
    have h2 : isWs c = false := by simp [isWs]; omega
    rw [h1, h2]
  · rfl

/-- `map` commutes with `dropWhile` when the predicate is invariant under the
mapped function. -/
theorem map_dropWhile (f : Nat → Nat) (p q : Nat → Bool) (hpq : ∀ c, q (f c) = p c) :
    ∀ l : Str, (l.dropWhile p).map f = (l.map f).dropWhile q := by
  intro l
  induction l with
  | nil => rfl
  | cons c l ih =>
    simp only [List.dropWhile, List.map]
    cases h : p c with
    | true => simp [hpq, h, ih]
    | false => simp [hpq, h]

/-- Lowercasing commutes with trimming. -/
theorem jsLower_jsTrim_comm (s : Str) : jsLower (jsTrim s) = jsTrim (jsLower s) := by
  unfold jsTrim jsLower
  rw [List.map_reverse, map_dropWhile lowerChar isWs isWs isWs_lowerChar, List.map_reverse,
    map_dropWhile lowerChar isWs isWs isWs_lowerChar]

/-- The head surviving a `dropWhile` fails the predicate. -/
theorem head_dropWhile_false (p : Nat → Bool) :
    ∀ (l : Str) (c : Nat), (l.dropWhile p).head? = some c → p c = false := by
  intro l
  induction l with
  | nil => intro c h; simp [List.dropWhile] at h
  | cons a l ih =>
    intro c h
    rw [List.dropWhile_cons] at h
    by_cases ha : p a = true
    · exact ih c (by simpa [ha] using h)
    · simp only [ha, if_false] at h
      simp only [List.head?] at h
      cases h
      simpa using ha

/-- A list whose head fails the predicate is unchanged by `dropWhile`. -/
theorem dropWhile_eq_self_of_head (p : Nat → Bool) (l : Str)
    (h : ∀ c, l.head? = some c → p c = false) : l.dropWhile p = l := by
  cases l with
  | nil => rfl
  | cons a l => rw [List.dropWhile_cons, if_neg (by simp [h a rfl])]

/-- `dropWhile` is idempotent. -/
theorem dropWhile_idem (p : Nat → Bool) (l : Str) :
    (l.dropWhile p).dropWhile p = l.dropWhile p :=
  dropWhile_eq_self_of_head p _ (head_dropWhile_false p l)

/-- The head of a prefix is the head of the whole list. -/
theorem head_of_initialSegment (t u : Str) (c : Nat) (hp : t <+: u) (h : t.head? = some c) :
    u.head? = some c := by
  obtain ⟨r, rfl⟩ := hp
  cases t with
  | nil => simp at h
  | cons a t => simpa using h

/-- The head of a trimmed string fails `isWs`. -/
theorem head_jsTrim_false (s : Str) (c : Nat) (h : (jsTrim s).head? = some c) :
    isWs c = false := by
  unfold jsTrim at h
  have hsuf : (s.dropWhile isWs).reverse.dropWhile isWs <:+ (s.dropWhile isWs).reverse :=
    List.dropWhile_suffix isWs
  have hpre : ((s.dropWhile isWs).reverse.dropWhile isWs).reverse <+: s.dropWhile isWs := by
    have h2 := List.reverse_prefix.mpr hsuf
    rwa [List.reverse_reverse] at h2
  exact head_dropWhile_false isWs s c (head_of_initialSegment _ _ c hpre h)

/-- Trimming is idempotent. -/
theorem jsTrim_idem (s : Str) : jsTrim (jsTrim s) = jsTrim s := by
  have h1 : (jsTrim s).dropWhile isWs = jsTrim s :=
    dropWhile_eq_self_of_head isWs _ (head_jsTrim_false s)
  show ((((jsTrim s).dropWhile isWs).reverse).dropWhile isWs).reverse = jsTrim s
  rw [h1]
  show ((((s.dropWhile isWs).reverse.dropWhile isWs).reverse).reverse.dropWhile isWs).reverse
    = jsTrim s
  rw [List.reverse_reverse, dropWhile_idem]
  rfl

/-- The normalized candidates are lowercase and trimmed. -/
theorem normalized_fixed (x : Str) :
    jsLower (jsTrim (jsLower x)) = jsTrim (jsLower x) ∧
    jsTrim (jsTrim (jsLower x)) = jsTrim (jsLower x) := by
  constructor
  · rw [jsLower_jsTrim_comm, jsLower_idem]
  · exact jsTrim_idem _

/-- Elements produced by `dedupFirstAux` come from the input list. -/
theorem dedupFirstAux_subset :
    ∀ (l : List Str) (seen : List Str) (x : Str), x ∈ dedupFirstAux seen l → x ∈ l := by
  intro l
  induction l with
  | nil => intro seen x hx; simp [dedupFirstAux] at hx
  | cons k rest ih =>
    intro seen x hx
    unfold dedupFirstAux at hx
    split at hx
    · exact List.mem_cons_of_mem _ (ih seen x hx)
    · rcases List.mem_cons.mp hx with h | h
      · exact h ▸ List.mem_cons_self _ _
      · exact List.mem_cons_of_mem _ (ih _ x h)

/-- `dedupFirstAux` yields a duplicate-free list avoiding `seen`. -/
theorem dedupFirstAux_nodup :
    ∀ (l : List Str) (seen : List Str),
      (dedupFirstAux seen l).Nodup ∧ ∀ x ∈ dedupFirstAux seen l, x ∉ seen := by
  intro l
  induction l with
  | nil => intro seen; simp [dedupFirstAux]
  | cons k rest ih =>
    intro seen
    unfold dedupFirstAux
    split
    · exact ih seen
    · rename_i hk
      obtain ⟨hnd, hav⟩ := ih (k :: seen)
      refine ⟨List.nodup_cons.mpr ⟨fun hmem => ?_, hnd⟩, ?_⟩
      · exact (hav k hmem) (List.mem_cons_self _ _)
      · intro x hx
        rcases List.mem_cons.mp hx with h | h
        · exact h ▸ hk
        · exact fun hseen => (hav x h) (List.mem_cons_of_mem _ hseen)

/-- The cleanup pipeline produces only good keywords, without duplicates. -/
theorem cleanKeywords_good (l : List Str) :
    (cleanKeywords l).all goodKeyword = true ∧ (cleanKeywords l).Nodup := by
  constructor
  · apply List.all_eq_true.mpr
    intro k hk
    have hk2 : k ∈ (l.map (fun keyword => jsTrim (jsLower keyword))).filter
        (fun keyword => decide (2 < keyword.length) && !isCommonWord keyword) :=
      dedupFirstAux_subset _ [] k hk
    obtain ⟨hmem, hpred⟩ := List.mem_filter.mp hk2
    obtain ⟨x, _, rfl⟩ := List.mem_map.mp hmem
    obtain ⟨hlow, htrim⟩ := normalized_fixed x
    have hlen : 2 < (jsTrim (jsLower x)).length := by
      have := (Bool.and_eq_true _ _).mp hpred
      simpa using this.1
    have hcom : isCommonWord (jsTrim (jsLower x)) = false := by
      have := (Bool.and_eq_true _ _).mp hpred
      simpa using this.2
    have hne : (jsTrim (jsLower x)).isEmpty = false := by
      cases h : jsTrim (jsLower x) with
      | nil => rw [h] at hlen; simp at hlen
      | cons a t => simp [List.isEmpty]
    simp [goodKeyword, hlow, htrim, hlen, hcom, hne]
  · exact (dedupFirstAux_nodup _ []).1

/-- C4: every keyword returned by `extractKeywordsFromPath` or
`extractKeywordsFromContent` is lowercase, whitespace-trimmed, nonempty of
length greater than 2 and not a stop word, and neither result contains
duplicates. -/
theorem c4_keyword_invariants (filePath content contentPath : Str) :
    ((extractKeywordsFromPath filePath).all goodKeyword = true ∧
      (extractKeywordsFromPath filePath).Nodup) ∧
    ((extractKeywordsFromContent content contentPath).all goodKeyword = true ∧
      (extractKeywordsFromContent content contentPath).Nodup) := by
  constructor
  · unfold extractKeywordsFromPath
    exact cleanKeywords_good _
  · unfold extractKeywordsFromContent
    exact cleanKeywords_good _

/-! Lemmas for `findMatchingTasks` (claim C3). -/

/-- Every pair in the match list carries its task's score, and it is
positive. -/
theorem scorePairs_mem (tasks : List Task) (ks : List Str) (p : Task × Nat)
    (hp : p ∈ scorePairs tasks ks) :
    p.2 = calculateMatchScore p.1 ks ∧ 0 < p.2 := by
  obtain ⟨t, _, hf⟩ := List.mem_filterMap.mp hp
  dsimp only at hf
  split at hf
  · cases hf
    exact ⟨rfl, by assumption⟩
  · cases hf

/-- Projecting the match list onto tasks gives the positive-score filter of
the input. -/
theorem map_fst_scorePairs (tasks : List Task) (ks : List Str) :
    (scorePairs tasks ks).map Prod.fst =
    tasks.filter (fun t => decide (0 < calculateMatchScore t ks)) := by
  induction tasks with
  | nil => rfl
  | cons t ts ih =>
    unfold scorePairs at ih ⊢
    by_cases h : 0 < calculateMatchScore t ks <;>
      simp [List.filterMap_cons, List.filter_cons, h, ih]

/-- Filtering for one score value commutes with the stable descending
insertion: elements passed over by the insertion have a strictly larger
score, never the inserted one's. -/
theorem filter_orderedInsert_pairs (n : Nat) (a : Task × Nat) :
    ∀ l : List (Task × Nat),
      (l.orderedInsert (fun x y => y.2 ≤ x.2) a).filter (fun x => x.2 == n) =
      (if a.2 == n then a :: l.filter (fun x => x.2 == n)
       else l.filter (fun x => x.2 == n)) := by
  intro l
  induction l with
  | nil => simp [List.orderedInsert, List.filter_cons]
  | cons b l ih =>
    rw [List.orderedInsert]
    split
    · simp [List.filter_cons]
    · rename_i hr
      rw [List.filter_cons, ih]
      cases ha : a.2 == n with
      | true =>
        have hb : (b.2 == n) = false := by
          have h1 : a.2 = n := by simpa using ha
          have h2 : ¬ b.2 ≤ a.2 := by simpa using hr
          simp
          omega
        simp [hb, List.filter_cons]
      | false => simp [List.filter_cons]

/-- Stability of the sort: filtering the sorted match list for any single
score value gives the same sequence as filtering the unsorted one. -/
theorem filter_insertionSort_pairs (n : Nat) (l : List (Task × Nat)) :
    ((l.insertionSort (fun x y => y.2 ≤ x.2)).filter (fun x => x.2 == n)) =
    l.filter (fun x => x.2 == n) := by
  induction l with
  | nil => rfl
  | cons a l ih =>
    rw [List.insertionSort, filter_orderedInsert_pairs, ih, List.filter_cons]

/-- A filter of the first projections is the projection of a filter. -/
theorem filter_of_map_fst (q : Task → Bool) (l : List (Task × Nat)) :
    (l.map Prod.fst).filter q = (l.filter (fun p => q p.1)).map Prod.fst := by
  induction l with
  | nil => rfl
  | cons a l ih =>
    rw [List.map_cons, List.filter_cons, List.filter_cons]
    cases q a.1 <;> simp [ih]

/-- The sorted match list is a permutation of the unsorted one and keeps the
pair invariant. -/
theorem sorted_pairs_mem (tasks : List Task) (ks : List Str) (p : Task × Nat)
    (hp : p ∈ (scorePairs tasks ks).insertionSort (fun x y => y.2 ≤ x.2)) :
    p.2 = calculateMatchScore p.1 ks ∧ 0 < p.2 :=
  scorePairs_mem tasks ks p (((scorePairs tasks ks).perm_insertionSort _).mem_iff.mp hp)

/-- C3: `findMatchingTasks` (i) returns only tasks of positive score — a task
scoring 0 never appears; (ii) returns, as a multiset, exactly the
positive-score tasks of the input; (iii) is sorted by weakly descending
score; (iv) is stable — filtering the output for any fixed score value
reproduces the positive-score tasks of that value in input order (together
with (ii) and (iii) this pins the output down uniquely as the stable
descending sort); and (v) returns `[]` on an empty task list or an empty
keyword list.  Scores are not part of the output type. -/
theorem c3_findMatchingTasks_spec (tasks : List Task) (ks : List Str) :
    ((findMatchingTasks tasks ks).all (fun t => decide (0 < calculateMatchScore t ks)) = true) ∧
    List.Perm (findMatchingTasks tasks ks)
      (tasks.filter (fun t => decide (0 < calculateMatchScore t ks))) ∧
    (findMatchingTasks tasks ks).Pairwise
      (fun a b => calculateMatchScore b ks ≤ calculateMatchScore a ks) ∧
    (∀ n : Nat,
      (findMatchingTasks tasks ks).filter (fun t => calculateMatchScore t ks == n) =
      (tasks.filter (fun t => decide (0 < calculateMatchScore t ks))).filter
        (fun t => calculateMatchScore t ks == n)) ∧
    findMatchingTasks [] ks = [] ∧ findMatchingTasks tasks [] = [] := by
  have hEq : findMatchingTasks tasks ks =
      ((scorePairs tasks ks).insertionSort (fun x y => y.2 ≤ x.2)).map Prod.fst := rfl
  refine ⟨?_, ?_, ?_, ?_, rfl, ?_⟩
  · apply List.all_eq_true.mpr
    intro t ht
    rw [hEq] at ht
    obtain ⟨p, hp, rfl⟩ := List.mem_map.mp ht
    obtain ⟨hps, hpos⟩ := sorted_pairs_mem tasks ks p hp
    simpa using hps ▸ hpos
  · rw [hEq, ← map_fst_scorePairs]
    exact ((scorePairs tasks ks).perm_insertionSort _).map Prod.fst
  · rw [hEq]
    apply List.pairwise_map.mpr
    have hsorted : ((scorePairs tasks ks).insertionSort (fun x y => y.2 ≤ x.2)).Pairwise
        (fun x y => y.2 ≤ x.2) := by
      haveI : IsTotal (Task × Nat) (fun x y => y.2 ≤ x.2) :=
        ⟨fun a b => (Nat.le_total b.2 a.2).imp id id⟩
      haveI : IsTrans (Task × Nat) (fun x y => y.2 ≤ x.2) :=
        ⟨fun _ _ _ hab hbc => Nat.le_trans hbc hab⟩
      exact List.sorted_insertionSort _ _
    refine hsorted.imp_of_mem ?_
    intro a b ha hb hr
    obtain ⟨has, _⟩ := sorted_pairs_mem tasks ks a ha
    obtain ⟨hbs, _⟩ := sorted_pairs_mem tasks ks b hb
    rw [← has, ← hbs]
    exact hr
  · intro n
    rw [hEq, filter_of_map_fst]
    have h1 : ((scorePairs tasks ks).insertionSort (fun x y => y.2 ≤ x.2)).filter
        (fun p => calculateMatchScore p.1 ks == n) =
        ((scorePairs tasks ks).insertionSort (fun x y => y.2 ≤ x.2)).filter
        (fun p => p.2 == n) := by
      apply List.filter_congr
      intro p hp
      rw [(sorted_pairs_mem tasks ks p hp).1]
    have h3 : (scorePairs tasks ks).filter (fun p => calculateMatchScore p.1 ks == n) =
        (scorePairs tasks ks).filter (fun p => p.2 == n) := by
      apply List.filter_congr
      intro p hp
      rw [(scorePairs_mem tasks ks p hp).1]
    rw [h1, filter_insertionSort_pairs, ← h3,
      ← filter_of_map_fst (fun t => calculateMatchScore t ks == n) (scorePairs tasks ks),
      map_fst_scorePairs]
  · have hnil : scorePairs tasks [] = [] := by
      apply List.filterMap_eq_nil.mpr
      intro t _
      rfl
    show ((scorePairs tasks []).insertionSort (fun x y => y.2 ≤ x.2)).map Prod.fst = []
    rw [hnil]
    rfl

/-- C6: the spec's worked examples for path extraction.
`"src/controllers/PaymentController.js"` yields `paymentcontroller`,
`payment`, `controller` and `controllers` but neither `src` nor `js`;
`"stripe_webhook_handler.js"` yields `stripe`, `webhook` and `handler`. -/
theorem c6_extract_path_examples :
    ((extractKeywordsFromPath (str "src/controllers/PaymentController.js")).contains
        (str "paymentcontroller") = true ∧
      (extractKeywordsFromPath (str "src/controllers/PaymentController.js")).contains
        (str "payment") = true ∧
      (extractKeywordsFromPath (str "src/controllers/PaymentController.js")).contains
        (str "controller") = true ∧
      (extractKeywordsFromPath (str "src/controllers/PaymentController.js")).contains
        (str "controllers") = true ∧
      (extractKeywordsFromPath (str "src/controllers/PaymentController.js")).contains
        (str "src") = false ∧
      (extractKeywordsFromPath (str "src/controllers/PaymentController.js")).contains
        (str "js") = false) ∧
    ((extractKeywordsFromPath (str "stripe_webhook_handler.js")).contains
        (str "stripe") = true ∧
      (extractKeywordsFromPath (str "stripe_webhook_handler.js")).contains
        (str "webhook") = true ∧
      (extractKeywordsFromPath (str "stripe_webhook_handler.js")).contains
        (str "handler") = true) := by
  constructor
  · refine ⟨by decide, by decide, by decide, by decide, by decide, by decide⟩
  · refine ⟨by decide, by decide, by decide⟩

/-- C7: the empty path extracts nothing; extension stripping is a no-op on a
name without a dot, so a filename like `Dockerfile` survives to the output
(lowercased). -/
theorem c7_extract_path_edge_cases :
    extractKeywordsFromPath (str "") = [] ∧
    (∀ name : Str, 46 ∉ name → stripExt name = name) ∧
    (extractKeywordsFromPath (str "Dockerfile")).contains (str "dockerfile") = true := by
  refine ⟨by decide, ?_, by decide⟩
  intro name h
  unfold stripExt
  dsimp only
  split
  · rename_i r heq
    exfalso
    apply h
    have h46 : 46 ∈ name.reverse.drop
        (name.reverse.takeWhile (fun c => c != 46 && c != 47)).length := by
      rw [heq]
      exact List.mem_cons_self _ _
    exact List.mem_reverse.mp (List.mem_of_mem_drop h46)
  · rfl

/-- Witness for C7's no-dot clause at the spec's example filename. -/
theorem c7_witness : stripExt (str "Dockerfile") = str "Dockerfile" :=
  c7_extract_path_edge_cases.2.1 (str "Dockerfile") (by decide)

/-- C8: content extraction is total and never raises — in particular every
extractor yields the empty candidate list on empty content rather than an
error; every extension outside the recognized set dispatches to the generic
fallback; and the fallback's candidates are exactly the capitalized
all-letter words of length greater than 3 occurring anywhere in the text. -/
theorem c8_content_fallback :
    (∀ filePath : Str, extractKeywordsFromContent [] filePath = []) ∧
    (∀ content filePath : Str,
      recognizedExts.contains (jsLower (extname filePath)) = false →
      extractKeywordsFromContent content filePath =
        cleanKeywords (extractGenericKeywords content)) ∧
    (∀ content : Str,
      extractGenericKeywords content = (wordRuns content).filter specCapitalizedLong) := by
  refine ⟨?_, ?_, ?_⟩
  · intro filePath
    unfold extractKeywordsFromContent
    dsimp only
    split_ifs <;> rfl
  · intro content filePath h
    have h' : jsLower (extname filePath) ∉ recognizedExts := by simpa using h
    simp only [recognizedExts, List.mem_cons, List.not_mem_nil, or_false] at h'
    push_neg at h'
    obtain ⟨n1, n2, n3, n4, n5, n6, n7⟩ := h'
    unfold extractKeywordsFromContent
    dsimp only
    rw [if_neg (by tauto), if_neg n5, if_neg n6, if_neg n7]
  · intro content
    unfold extractGenericKeywords
    rw [List.filter_filter]
    apply List.filter_congr
    intro w _
    cases w with
    | nil => rfl
    | cons c rest =>
      cases rest with
      | nil => simp [capMatch, specCapitalizedLong]
      | cons a t =>
        simp only [capMatch, specCapitalizedLong, List.isEmpty, Bool.not_false, Bool.and_true]
        cases h1 : (65 ≤ c && c ≤ 90) <;>
          cases h2 : (a :: t).all isAsciiLetter <;>
            cases h3 : decide (3 < (c :: a :: t).length) <;> simp

/-- Witness for C8's fallback dispatch at a concrete unrecognized extension. -/
theorem c8_witness :
    extractKeywordsFromContent (str "Payment went Fine") (str "notes.txt") =
      cleanKeywords (extractGenericKeywords (str "Payment went Fine")) :=
  c8_content_fallback.2.1 (str "Payment went Fine") (str "notes.txt") (by decide)

end Notes
